import Mathlib

/-!
Verification of the ComputeSDK real-time transport layer: the binary
WebSocket protocol codec (`computesdk/protocol.py`) and the reconnecting
WebSocket client (`computesdk/websocket_client.py`).

Modelling conventions:
* Python `bytes` values are `List Nat` (each entry < 256 when well formed).
* Python `str` values are `List Nat` of Unicode code points; `str.encode("utf-8")`
  and `bytes.decode("utf-8")` are modelled by an explicit UTF-8 codec below.
  A raised `UnicodeDecodeError` / `UnicodeEncodeError` is modelled by `none`.
* IEEE-754 doubles are carried as their 64-bit big-endian bit patterns
  (`Nat` < 2^64); `struct.pack(">d", x)` writes those 8 bytes verbatim.
* `struct.pack` with an out-of-range argument raises `struct.error`; the
  packing helpers return `none` in that case.
-/

namespace ComputeSDK

/-- Python `bytes`: a sequence of octets. -/
abbrev Bytes := List Nat

/-- Python `str`: a sequence of Unicode code points. -/
abbrev PyStr := List Nat

/-- Convenience for writing Python string literals as code-point lists. -/
def strLit (s : String) : PyStr := s.data.map Char.toNat

/-- Unicode scalar values: exactly the code points Python can UTF-8-encode
(surrogates U+D800..U+DFFF raise `UnicodeEncodeError`). -/
def isScalar (c : Nat) : Bool := c < 0xD800 || (0xE000 ≤ c && c < 0x110000)

/-- UTF-8 encoding of a single scalar value (1 to 4 bytes). -/
def utf8EncodeChar (c : Nat) : List Nat :=
  if c < 0x80 then [c]
  else if c < 0x800 then [0xC0 + c / 64, 0x80 + c % 64]
  else if c < 0x10000 then [0xE0 + c / 4096, 0x80 + c / 64 % 64, 0x80 + c % 64]
  else [0xF0 + c / 262144, 0x80 + c / 4096 % 64, 0x80 + c / 64 % 64, 0x80 + c % 64]

/-- Models Python `s.encode("utf-8")`: fails (raises) iff `s` holds a
non-scalar code point. -/
def utf8Encode (s : PyStr) : Option Bytes :=
  if s.all isScalar then some (s.flatMap utf8EncodeChar) else none

/-- Is `b` a UTF-8 continuation byte? -/
def isCont (b : Nat) : Bool := 0x80 ≤ b && b < 0xC0

/-- One-byte-at-a-time strict UTF-8 decoding. The state is the number of
continuation bytes still `need`ed, the partial code point `acc`, and the
smallest code point `lo` this sequence length may legally produce (the
overlong bound). On the last continuation byte the code point is checked
against the overlong bound, the surrogate range and the U+10FFFF maximum,
exactly the sequences CPython's strict codec rejects. -/
def utf8Run : Nat → Nat → Nat → Bytes → Option PyStr
  | 0, _, _, [] => some []
  | _ + 1, _, _, [] => none
  | 0, _, _, b :: r =>
    if b < 0x80 then (utf8Run 0 0 0 r).map (b :: ·)
    else if b < 0xC2 then none
    else if b < 0xE0 then utf8Run 1 (b - 0xC0) 0x80 r
    else if b < 0xF0 then utf8Run 2 (b - 0xE0) 0x800 r
    else if b < 0xF5 then utf8Run 3 (b - 0xF0) 0x10000 r
    else none
  | need + 1, acc, lo, b :: r =>
    if isCont b then
      let acc' := acc * 64 + (b - 0x80)
      if need = 0 then
        if acc' < lo || (0xD800 ≤ acc' && acc' < 0xE000) || 0x110000 ≤ acc' then none
        else (utf8Run 0 0 0 r).map (acc' :: ·)
      else utf8Run need acc' lo r
    else none

/-- Models Python `b.decode("utf-8")` (strict): decodes the whole byte list or
fails. Rejects invalid lead bytes, truncated sequences, overlong forms,
surrogates and code points above U+10FFFF, as CPython's strict codec does. -/
def utf8Decode (l : Bytes) : Option PyStr := utf8Run 0 0 0 l

/-- Models Python `b.decode("utf-8", errors="replace")`: never fails; an
undecodable position yields U+FFFD and decoding resumes one byte later
(approximating CPython's maximal-subpart replacement granularity; no claim
in this development depends on this branch's exact output). -/
def utf8DecodeReplace : Bytes → PyStr
  | [] => []
  | b :: r =>
    if b < 0x80 then b :: utf8DecodeReplace r
    else if b < 0xC2 then 0xFFFD :: utf8DecodeReplace r
    else if b < 0xE0 then
      match r with
      | b1 :: r' =>
        if isCont b1 then ((b - 0xC0) * 64 + (b1 - 0x80)) :: utf8DecodeReplace r'
        else 0xFFFD :: utf8DecodeReplace (b1 :: r')
      | [] => [0xFFFD]
    else if b < 0xF0 then
      match r with
      | b1 :: b2 :: r' =>
        if isCont b1 && isCont b2 then
          let c := (b - 0xE0) * 4096 + (b1 - 0x80) * 64 + (b2 - 0x80)
          if c < 0x800 || (0xD800 ≤ c && c < 0xE000) then 0xFFFD :: utf8DecodeReplace (b1 :: b2 :: r')
          else c :: utf8DecodeReplace r'
        else 0xFFFD :: utf8DecodeReplace (b1 :: b2 :: r')
      | _ => List.replicate (r.length + 1) 0xFFFD
    else if b < 0xF5 then
      match r with
      | b1 :: b2 :: b3 :: r' =>
        if isCont b1 && isCont b2 && isCont b3 then
          let c := (b - 0xF0) * 262144 + (b1 - 0x80) * 4096 + (b2 - 0x80) * 64 + (b3 - 0x80)
          if c < 0x10000 || 0x110000 ≤ c then 0xFFFD :: utf8DecodeReplace (b1 :: b2 :: b3 :: r')
          else c :: utf8DecodeReplace r'
        else 0xFFFD :: utf8DecodeReplace (b1 :: b2 :: b3 :: r')
      | _ => List.replicate (r.length + 1) 0xFFFD
    else 0xFFFD :: utf8DecodeReplace r

/-- Big-endian bytes of a u16 (the value side of `struct.pack(">H", n)`). -/
def pack16c (n : Nat) : Bytes := [n / 256, n % 256]

/-- Models `struct.pack(">H", n)`: raises `struct.error` unless `n < 2^16`. -/
def pack16 (n : Nat) : Option Bytes := if n < 65536 then some (pack16c n) else none

/-- Big-endian bytes of a u32 (the value side of `struct.pack(">I", n)`). -/
def pack32c (n : Nat) : Bytes := [n / 16777216, n / 65536 % 256, n / 256 % 256, n % 256]

/-- Models `struct.pack(">I", n)`: raises `struct.error` unless `n < 2^32`. -/
def pack32 (n : Nat) : Option Bytes := if n < 4294967296 then some (pack32c n) else none

/-- The 8 big-endian bytes of a 64-bit pattern: `struct.pack(">d", x)` written
on the bit pattern of `x`. -/
def pack64 (n : Nat) : Bytes :=
  [n / 72057594037927936 % 256, n / 281474976710656 % 256,
   n / 1099511627776 % 256, n / 4294967296 % 256,
   n / 16777216 % 256, n / 65536 % 256, n / 256 % 256, n % 256]

/-- Models `struct.unpack(">H", ...)` on two bytes. -/
def unpack16 (b0 b1 : Nat) : Nat := b0 * 256 + b1

/-- Models `struct.unpack(">I", ...)` on four bytes. -/
def unpack32 (b0 b1 b2 b3 : Nat) : Nat := ((b0 * 256 + b1) * 256 + b2) * 256 + b3

/-- Models `struct.unpack(">d", ...)` on eight bytes, yielding the bit
pattern of the double. -/
def unpack64 (l : Bytes) : Nat := l.foldl (fun a b => a * 256 + b) 0

/-- A dynamic Python value as it may appear in a message's `data` dict.
Nested dicts, lists and arbitrary objects (serialized to text by the source
through `json.dumps` / `str`) are outside this embedding's value universe;
no claim quantifies over them. -/
inductive PyValue where
  | vstr (s : PyStr)
  | vbool (b : Bool)
  | vint (n : Int)
  | vfloat (bits : Nat)
  | vbytes (bs : Bytes)
  | vnone
  deriving DecidableEq, Repr

/-- Models `isinstance(value, str)`. -/
def isinstance_str : PyValue → Bool
  | .vstr _ => true
  | _ => false

/-- Models `isinstance(value, bool)`. -/
def isinstance_bool : PyValue → Bool
  | .vbool _ => true
  | _ => false

/-- Models `isinstance(value, (int, float))`. In Python `bool` is a subclass
of `int`, so this is also `true` on booleans. -/
def isinstance_int_or_float : PyValue → Bool
  | .vbool _ => true
  | .vint _ => true
  | .vfloat _ => true
  | _ => false

/-- Models `isinstance(value, bytes)`. -/
def isinstance_bytes : PyValue → Bool
  | .vbytes _ => true
  | _ => false

/-- IEEE-754 binary64 bit pattern of a natural number, rounding to nearest
with ties to even; `none` models the `OverflowError` Python raises when an
int exceeds the double range. Only used by the `vint` encoding branch, about
which no claim is proved. -/
def floatBitsOfNat (m : Nat) : Option Nat :=
  if m = 0 then some 0 else
  let k := Nat.log2 m
  if k ≤ 52 then
    some ((k + 1023) * 2 ^ 52 + (m * 2 ^ (52 - k) - 2 ^ 52))
  else
    let sh := k - 52
    let q := m / 2 ^ sh
    let r := m % 2 ^ sh
    let q' := q + (if 2 * r > 2 ^ sh || (2 * r == 2 ^ sh && q % 2 == 1) then 1 else 0)
    let (mant, e) := if q' = 2 ^ 53 then (2 ^ 52, k + 1) else (q', k)
    if e + 1023 ≥ 2047 then none
    else some ((e + 1023) * 2 ^ 52 + (mant - 2 ^ 52))

/-- Models `float(value)` (as a bit pattern) for the values reaching the
numeric branch of `_encode_data`. -/
def pyFloatBits : PyValue → Option Nat
  | .vfloat bits => some bits
  | .vint n =>
      if n < 0 then (floatBitsOfNat n.natAbs).map (2 ^ 63 + ·)
      else floatBitsOfNat n.natAbs
  | .vbool b => some (if b then 4607182418800017408 else 0)
  | _ => some 0

/-- A decoded payload value: the four wire value kinds of the protocol. -/
inductive Value where
  | vstr (s : PyStr)
  | vnum (bits : Nat)
  | vbool (b : Bool)
  | vbytes (bs : Bytes)
  deriving DecidableEq, Repr

/-- The Python value corresponding to a decoded wire value. -/
def Value.toPy : Value → PyValue
  | .vstr s => .vstr s
  | .vnum bits => .vfloat bits
  | .vbool b => .vbool b
  | .vbytes bs => .vbytes bs

/-- A message dict handed to `BinaryProtocol.encode`:
`{"type": ..., "channel": ..., "data": {...}}` with the dict's insertion
order made explicit as a list of key-value pairs. -/
structure Msg where
  type : PyStr
  channel : PyStr
  data : List (PyStr × PyValue)
  deriving DecidableEq, Repr

/-- A message dict returned by `BinaryProtocol.decode`. -/
structure Frame where
  type : PyStr
  channel : PyStr
  data : List (PyStr × Value)
  deriving DecidableEq, Repr

namespace BinaryProtocol

def MSG_SUBSCRIBE : Nat := 0x01
def MSG_UNSUBSCRIBE : Nat := 0x02
def MSG_DATA : Nat := 0x03
def MSG_ERROR : Nat := 0x04
def MSG_CONNECTED : Nat := 0x05

def VAL_STRING : Nat := 0x01
def VAL_NUMBER : Nat := 0x02
def VAL_BOOLEAN : Nat := 0x03
def VAL_BYTES : Nat := 0x04

/-- The `TYPE_TO_BYTE` mapping (`.get` on it returning `none` when absent). -/
def TYPE_TO_BYTE (t : PyStr) : Option Nat :=
  if t = strLit "subscribe" then some MSG_SUBSCRIBE
  else if t = strLit "unsubscribe" then some MSG_UNSUBSCRIBE
  else if t = strLit "data" then some MSG_DATA
  else if t = strLit "error" then some MSG_ERROR
  else if t = strLit "connected" then some MSG_CONNECTED
  else none

/-- One value of `_encode_data`'s per-value branch chain (lines 185-230 of
`protocol.py`), with the source's branch order kept as a chain of
`isinstance` tests: string, then boolean (before the numeric case, since
`bool` is a subclass of `int`), then numeric, then bytes; `None` becomes a
zero-length string. -/
def encodeValue (v : PyValue) : Option Bytes :=
  if isinstance_str v then
    match v with
    | .vstr s => do
        let vb ← utf8Encode s
        let lb ← pack32 vb.length
        pure (VAL_STRING :: (lb ++ vb))
    | _ => none
  else if isinstance_bool v then
    match v with
    | .vbool b => some (VAL_BOOLEAN :: (pack32c 1 ++ [if b then 0x01 else 0x00]))
    | _ => none
  else if isinstance_int_or_float v then
    (pyFloatBits v).map (fun bits => VAL_NUMBER :: (pack32c 8 ++ pack64 bits))
  else if isinstance_bytes v then
    match v with
    | .vbytes bs => (pack32 bs.length).map (fun lb => VAL_BYTES :: (lb ++ bs))
    | _ => none
  else
    -- value is None: String tag with zero-length content
    some (VAL_STRING :: pack32c 0)

/-- The per-field loop body of `_encode_data`: key length, key bytes, then
the encoded value, concatenated over all fields. -/
def encodeFields : List (PyStr × PyValue) → Option Bytes
  | [] => some []
  | (k, v) :: rest => do
      let kb ← utf8Encode k
      let kl ← pack16 kb.length
      let vb ← encodeValue v
      let restb ← encodeFields rest
      pure (kl ++ kb ++ vb ++ restb)

/-- Models `BinaryProtocol._encode_data`. -/
def encodeData (data : List (PyStr × PyValue)) : Option Bytes :=
  if data.isEmpty then some (pack16c 0)
  else do
    let cnt ← pack16 data.length
    let fs ← encodeFields data
    pure (cnt ++ fs)

/-- Models `BinaryProtocol.encode` (lines 69-106 of `protocol.py`). `none`
models a raised exception (an unencodable string or an oversized length
handed to `struct.pack`). -/
def encode (m : Msg) : Option Bytes := do
  let type_byte := (TYPE_TO_BYTE m.type).getD MSG_DATA
  let channel_bytes ← utf8Encode m.channel
  let channel_len ← pack16 channel_bytes.length
  let msg_type_bytes ← utf8Encode m.type
  let msg_type_len ← pack16 msg_type_bytes.length
  let data_bytes ← encodeData m.data
  let data_len ← pack32 data_bytes.length
  pure (type_byte :: (channel_len ++ channel_bytes ++ msg_type_len ++ msg_type_bytes ++ data_len ++ data_bytes))

/-- The source's recurring idiom `if offset + 2 > len(data): ...` followed by
`struct.unpack(">H", data[offset:offset+2])`: read a big-endian u16 from the
front of the remaining bytes, or fail if fewer than 2 bytes remain. -/
def read16 : Bytes → Option (Nat × Bytes)
  | b0 :: b1 :: r => some (unpack16 b0 b1, r)
  | _ => none

/-- Read one byte (`if offset + 1 > len(data)` then `data[offset]`). -/
def read8 : Bytes → Option (Nat × Bytes)
  | b :: r => some (b, r)
  | _ => none

/-- Read a big-endian u32 (`if offset + 4 > len(data)` then
`struct.unpack(">I", ...)`). -/
def read32 : Bytes → Option (Nat × Bytes)
  | b0 :: b1 :: b2 :: b3 :: r => some (unpack32 b0 b1 b2 b3, r)
  | _ => none

/-- The idiom `if offset + n > len(data): ...` followed by the slice
`data[offset:offset+n]`: take `n` bytes from the front, or fail if fewer
than `n` remain. -/
def readLen (n : Nat) (r : Bytes) : Option (Bytes × Bytes) :=
  if r.length < n then none else some (r.take n, r.drop n)

/-- Python dict assignment `result[key] = v`: replaces in place if the key
exists, otherwise appends (insertion order). -/
def dictInsert (d : List (PyStr × Value)) (k : PyStr) (v : Value) : List (PyStr × Value) :=
  match d with
  | [] => [(k, v)]
  | (k', v') :: rest => if k' = k then (k', v) :: rest else (k', v') :: dictInsert rest k v

/-- The `for _ in range(num_fields)` loop of `_decode_data` (lines 245-296 of
`protocol.py`), consuming the remaining bytes from the front. A `break`
returns the fields accumulated so far; `none` models the `UnicodeDecodeError`
a strict `.decode("utf-8")` may raise on a key or a String value. -/
def decodeFields : Nat → Bytes → List (PyStr × Value) → Option (List (PyStr × Value))
  | 0, _, acc => some acc
  | n + 1, rest, acc =>
    match read16 rest with
    | none => some acc
    | some (key_len, r1) =>
      match readLen key_len r1 with
      | none => some acc
      | some (kb, r2) =>
        match utf8Decode kb with
        | none => none
        | some key =>
          match read8 r2 with
          | none => some acc
          | some (val_type, r3) =>
            match read32 r3 with
            | none => some acc
            | some (val_len, r4) =>
              match readLen val_len r4 with
              | none => some acc
              | some (vb, r5) =>
                if val_type = VAL_STRING then
                  match utf8Decode vb with
                  | none => none
                  | some s => decodeFields n r5 (dictInsert acc key (.vstr s))
                else if val_type = VAL_NUMBER then
                  if 8 ≤ val_len then decodeFields n r5 (dictInsert acc key (.vnum (unpack64 (vb.take 8))))
                  else decodeFields n r5 (dictInsert acc key (.vnum 0))
                else if val_type = VAL_BOOLEAN then
                  decodeFields n r5 (dictInsert acc key (.vbool (if 1 ≤ val_len then decide (vb.head? = some 0x01) else false)))
                else if val_type = VAL_BYTES then
                  decodeFields n r5 (dictInsert acc key (.vbytes vb))
                else
                  decodeFields n r5 (dictInsert acc key (.vstr (utf8DecodeReplace vb)))

/-- Models `BinaryProtocol._decode_data`: fewer than 2 bytes gives `{}`,
otherwise the u16 field count is read and the field loop runs. -/
def decodeData (data : Bytes) : Option (List (PyStr × Value)) :=
  match read16 data with
  | none => some []
  | some (num_fields, rest) => decodeFields num_fields rest []

/-- The synthetic error frame `{"type": "error", "channel": ch, "data":
{"error": msg}}` decode builds on malformed input. -/
def errFrame (ch : PyStr) (msg : String) : Frame :=
  ⟨strLit "error", ch, [(strLit "error", .vstr (strLit msg))]⟩

/-- Models `BinaryProtocol.decode` (lines 108-170 of `protocol.py`), reading
the frame sequentially from the front of the byte list: each
`offset + n > len(data)` bounds check of the source becomes a check that
fewer than `n` bytes remain. `none` models a raised `UnicodeDecodeError`.
The leading message-type byte is read and skipped, exactly as in the source,
which never uses `type_byte` afterwards. -/
def decode (data : Bytes) : Option Frame :=
  match data with
  | [] => some (errFrame [] "Empty message")
  | _type_byte :: r1 =>
    match read16 r1 with
    | none => some (errFrame [] "Invalid message")
    | some (channel_len, r2) =>
      match readLen channel_len r2 with
      | none => some (errFrame [] "Invalid message")
      | some (chb, r3) =>
        match utf8Decode chb with
        | none => none
        | some channel =>
          match read16 r3 with
          | none => some (errFrame channel "Invalid message")
          | some (msg_type_len, r4) =>
            match readLen msg_type_len r4 with
            | none => some (errFrame channel "Invalid message")
            | some (mtb, r5) =>
              match utf8Decode mtb with
              | none => none
              | some msg_type =>
                match read32 r5 with
                | none => some ⟨msg_type, channel, []⟩
                | some (data_len, r6) =>
                  match readLen data_len r6 with
                  | none => some ⟨msg_type, channel, []⟩
                  | some (db, _r7) =>
                    (decodeData db).map (fun payload => ⟨msg_type, channel, payload⟩)

end BinaryProtocol

/-! ## WebSocket client (`computesdk/websocket_client.py`)

The client's observable state: the connection flag, the subscription set,
the current reconnect delay and the trace of outbound messages handed to
`self._ws.send` (pre-encoding, i.e. the dicts passed to `_send_message`).
Delays, which are Python floats combined only by doubling and `min`, are
modelled as exact rationals. Python's `set` has no specified iteration
order; it is modelled as an insertion-ordered duplicate-free list, a valid
refinement of "replay in any fixed order". -/

structure WSClient where
  connected : Bool
  subscriptions : List PyStr
  currentDelay : ℚ
  sent : List Msg
  deriving DecidableEq

namespace WSClient

/-- Python `set.add`: idempotent insertion. -/
def setAdd (l : List PyStr) (x : PyStr) : List PyStr :=
  if x ∈ l then l else l ++ [x]

/-- The dict `{"type": "subscribe", "channel": channel}` built by
`_send_subscribe` (its absent `"data"` key defaults to `{}` in `encode`). -/
def subscribeMsg (channel : PyStr) : Msg := ⟨strLit "subscribe", channel, []⟩

/-- Models `WebSocketClient.subscribe` (lines 145-154): record the channel;
emit a live Subscribe frame only when currently connected. -/
def subscribe (c : WSClient) (channel : PyStr) : WSClient :=
  let c' := { c with subscriptions := setAdd c.subscriptions channel }
  if c'.connected then { c' with sent := c'.sent ++ [subscribeMsg channel] } else c'

/-- Models a successful `WebSocketClient.connect` (lines 107-127): the socket
opens, the reconnect delay resets to the configured initial value, and a
Subscribe frame is sent for every recorded subscription, before any other
outbound traffic. -/
def connectOk (reconnect_delay : ℚ) (c : WSClient) : WSClient :=
  { c with connected := true,
           currentDelay := reconnect_delay,
           sent := c.sent ++ c.subscriptions.map subscribeMsg }

/-- Models `WebSocketClient._send_message` (lines 239-250): returns the
updated client and, in place of a raised `WebSocketError`, the error message.
When the socket is absent or closed nothing is written and
"WebSocket is not connected" is raised; otherwise the encoded message is
handed to the socket (an encoding failure raising "Failed to send message"). -/
def sendMessage (c : WSClient) (m : Msg) : WSClient × Option String :=
  if ¬ c.connected then (c, some "WebSocket is not connected")
  else
    match BinaryProtocol.encode m with
    | some _ => ({ c with sent := c.sent ++ [m] }, none)
    | none => (c, some "Failed to send message")

/-- Models one call of `WebSocketClient._reconnect` (lines 305-333): sleep
for the current delay, double it and clamp to the configured maximum, then
attempt to connect; on success the delay resets to the initial value and the
recorded subscriptions are replayed, on failure the doubled delay is kept for
the next attempt. Returns the slept wait time together with the next state. -/
def reconnectStep (reconnect_delay max_reconnect_delay : ℚ) (c : WSClient)
    (success : Bool) : ℚ × WSClient :=
  let wait := c.currentDelay
  let doubled := min (c.currentDelay * 2) max_reconnect_delay
  if success then
    (wait, { c with connected := true,
                    currentDelay := reconnect_delay,
                    sent := c.sent ++ c.subscriptions.map subscribeMsg })
  else
    (wait, { c with connected := false, currentDelay := doubled })

/-- The wait times slept by a run of consecutive `_reconnect` calls (as the
receive loop keeps invoking `_reconnect` while the socket stays closed),
given the success/failure outcome of each connect attempt. -/
def backoffRun (reconnect_delay max_reconnect_delay : ℚ) :
    WSClient → List Bool → List ℚ
  | _, [] => []
  | c, s :: rest =>
    let (w, c') := reconnectStep reconnect_delay max_reconnect_delay c s
    w :: backoffRun reconnect_delay max_reconnect_delay c' rest

/-- An event handler as dispatch sees it: a callback that either returns or
raises (the `Except.error` case). -/
abbrev Handler := Frame → Except String Unit

/-- Python `self._handlers.get(event_type)` on the handler registry. -/
def lookup (hs : List (PyStr × Handler)) (k : PyStr) : Option Handler :=
  match hs with
  | [] => none
  | (k', h) :: rest => if k' = k then some h else lookup rest k

/-- The dispatch section of `_receive_loop` (lines 271-287): invoke the
type-specific handler first, then the wildcard handler, each on the decoded
message, each wrapped in `try ... except Exception: pass` so that a raising
handler is caught and discarded. Returns the list of handler invocations
(registry key paired with the message), in invocation order. -/
def dispatchMessage (hs : List (PyStr × Handler)) (msg : Frame) :
    List (PyStr × Frame) :=
  (match lookup hs msg.type with
   | some handler =>
     match handler msg with
     | .ok _ => [(msg.type, msg)]
     | .error _ => [(msg.type, msg)]
   | none => []) ++
  (match lookup hs (strLit "*") with
   | some wildcard_handler =>
     match wildcard_handler msg with
     | .ok _ => [(strLit "*", msg)]
     | .error _ => [(strLit "*", msg)]
   | none => [])

/-- The receive loop's dispatch behaviour over a stream of decoded inbound
messages: each message is dispatched in arrival order, one at a time. -/
def receiveLoop (hs : List (PyStr × Handler)) : List Frame → List (PyStr × Frame)
  | [] => []
  | m :: rest => dispatchMessage hs m ++ receiveLoop hs rest

end WSClient

/-! ## Helper lemmas -/

theorem take_app (a b : List Nat) : (a ++ b).take a.length = a := by
  induction a with
  | nil => simp
  | cons x xs ih => simp [ih]

theorem drop_app (a b : List Nat) : (a ++ b).drop a.length = b := by
  induction a with
  | nil => simp
  | cons x xs ih => simp [ih]

theorem utf8Run_lead1 (b : Nat) (r : Bytes) (h : b < 0x80) :
    utf8Run 0 0 0 (b :: r) = (utf8Run 0 0 0 r).map (b :: ·) := by
  simp only [utf8Run]
  rw [if_pos h]

theorem utf8Run_lead2 (b : Nat) (r : Bytes) (h1 : ¬ b < 0x80) (h2 : ¬ b < 0xC2)
    (h3 : b < 0xE0) : utf8Run 0 0 0 (b :: r) = utf8Run 1 (b - 0xC0) 0x80 r := by
  simp only [utf8Run]
  rw [if_neg h1, if_neg h2, if_pos h3]

theorem utf8Run_lead3 (b : Nat) (r : Bytes) (h1 : ¬ b < 0x80) (h2 : ¬ b < 0xC2)
    (h3 : ¬ b < 0xE0) (h4 : b < 0xF0) :
    utf8Run 0 0 0 (b :: r) = utf8Run 2 (b - 0xE0) 0x800 r := by
  simp only [utf8Run]
  rw [if_neg h1, if_neg h2, if_neg h3, if_pos h4]

theorem utf8Run_lead4 (b : Nat) (r : Bytes) (h1 : ¬ b < 0x80) (h2 : ¬ b < 0xC2)
    (h3 : ¬ b < 0xE0) (h4 : ¬ b < 0xF0) (h5 : b < 0xF5) :
    utf8Run 0 0 0 (b :: r) = utf8Run 3 (b - 0xF0) 0x10000 r := by
  simp only [utf8Run]
  rw [if_neg h1, if_neg h2, if_neg h3, if_neg h4, if_pos h5]

theorem utf8Run_cont3 (acc lo b : Nat) (r : Bytes) (hb : isCont b = true) :
    utf8Run 3 acc lo (b :: r) = utf8Run 2 (acc * 64 + (b - 0x80)) lo r := by
  simp only [utf8Run]
  rw [if_pos hb]
  simp

theorem utf8Run_cont2 (acc lo b : Nat) (r : Bytes) (hb : isCont b = true) :
    utf8Run 2 acc lo (b :: r) = utf8Run 1 (acc * 64 + (b - 0x80)) lo r := by
  simp only [utf8Run]
  rw [if_pos hb]
  simp

theorem utf8Run_cont1 (acc lo b : Nat) (r : Bytes) (hb : isCont b = true)
    (hok1 : lo ≤ acc * 64 + (b - 0x80))
    (hok2 : acc * 64 + (b - 0x80) < 0xD800 ∨ 0xE000 ≤ acc * 64 + (b - 0x80))
    (hok3 : acc * 64 + (b - 0x80) < 0x110000) :
    utf8Run 1 acc lo (b :: r) = (utf8Run 0 0 0 r).map ((acc * 64 + (b - 0x80)) :: ·) := by
  simp only [utf8Run]
  rw [if_pos hb, if_pos trivial,
    if_neg (by simp only [Bool.or_eq_true, Bool.and_eq_true, decide_eq_true_eq]; omega)]

theorem utf8Run_encodeChar (c : Nat) (h : isScalar c = true) (r : Bytes) :
    utf8Run 0 0 0 (utf8EncodeChar c ++ r) = (utf8Run 0 0 0 r).map (c :: ·) := by
  simp only [isScalar, Bool.or_eq_true, Bool.and_eq_true, decide_eq_true_eq] at h
  unfold utf8EncodeChar
  by_cases h1 : c < 0x80
  · rw [if_pos h1]
    simpa using utf8Run_lead1 c r h1
  · by_cases h2 : c < 0x800
    · rw [if_neg h1, if_pos h2]
      simp only [List.cons_append, List.nil_append]
      rw [utf8Run_lead2 _ _ (by omega) (by omega) (by omega),
        utf8Run_cont1 _ _ _ _
          (by simp only [isCont, Bool.and_eq_true, decide_eq_true_eq]; omega)
          (by omega) (by omega) (by omega)]
      have e : (0xC0 + c / 64 - 0xC0) * 64 + (0x80 + c % 64 - 0x80) = c := by omega
      rw [e]
    · by_cases h3 : c < 0x10000
      · rw [if_neg h1, if_neg h2, if_pos h3]
        simp only [List.cons_append, List.nil_append]
        rw [utf8Run_lead3 _ _ (by omega) (by omega) (by omega) (by omega),
          utf8Run_cont2 _ _ _ _
            (by simp only [isCont, Bool.and_eq_true, decide_eq_true_eq]; omega),
          utf8Run_cont1 _ _ _ _
            (by simp only [isCont, Bool.and_eq_true, decide_eq_true_eq]; omega)
            (by omega) (by omega) (by omega)]
        have e : ((0xE0 + c / 4096 - 0xE0) * 64 + (0x80 + c / 64 % 64 - 0x80)) * 64
            + (0x80 + c % 64 - 0x80) = c := by omega
        rw [e]
      · rw [if_neg h1, if_neg h2, if_neg h3]
        simp only [List.cons_append, List.nil_append]
        rw [utf8Run_lead4 _ _ (by omega) (by omega) (by omega) (by omega) (by omega),
          utf8Run_cont3 _ _ _ _
            (by simp only [isCont, Bool.and_eq_true, decide_eq_true_eq]; omega),
          utf8Run_cont2 _ _ _ _
            (by simp only [isCont, Bool.and_eq_true, decide_eq_true_eq]; omega),
          utf8Run_cont1 _ _ _ _
            (by simp only [isCont, Bool.and_eq_true, decide_eq_true_eq]; omega)
            (by omega) (by omega) (by omega)]
        have e : (((0xF0 + c / 262144 - 0xF0) * 64 + (0x80 + c / 4096 % 64 - 0x80)) * 64
            + (0x80 + c / 64 % 64 - 0x80)) * 64 + (0x80 + c % 64 - 0x80) = c := by omega
        rw [e]

theorem utf8Decode_encode_append (s : PyStr) (h : s.all isScalar = true) (r : Bytes) :
    utf8Decode (s.flatMap utf8EncodeChar ++ r) = (utf8Decode r).map (s ++ ·) := by
  unfold utf8Decode
  induction s with
  | nil =>
    simp only [List.flatMap_nil, List.nil_append]
    cases utf8Run 0 0 0 r <;> simp
  | cons c s ih =>
    simp only [List.all_cons, Bool.and_eq_true] at h
    rw [List.flatMap_cons, List.append_assoc, utf8Run_encodeChar c h.1, ih h.2]
    cases utf8Run 0 0 0 r <;> simp

theorem pack16_eq_some (n : Nat) (l : Bytes) (h : pack16 n = some l) :
    n < 65536 ∧ l = pack16c n := by
  unfold pack16 at h
  by_cases hn : n < 65536
  · rw [if_pos hn] at h
    cases h
    exact ⟨hn, rfl⟩
  · rw [if_neg hn] at h
    cases h

theorem pack32_eq_some (n : Nat) (l : Bytes) (h : pack32 n = some l) :
    n < 4294967296 ∧ l = pack32c n := by
  unfold pack32 at h
  by_cases hn : n < 4294967296
  · rw [if_pos hn] at h
    cases h
    exact ⟨hn, rfl⟩
  · rw [if_neg hn] at h
    cases h

namespace BinaryProtocol

theorem read16_pack (n : Nat) (h : n < 65536) (r : Bytes) :
    read16 (pack16c n ++ r) = some (n, r) := by
  have e : unpack16 (n / 256) (n % 256) = n := by unfold unpack16; omega
  simp [pack16c, read16, e]

theorem read16_short (r : Bytes) (h : r.length < 2) : read16 r = none := by
  match r with
  | [] => rfl
  | [b] => rfl
  | b0 :: b1 :: r' => simp at h; omega

theorem read32_pack (n : Nat) (h : n < 4294967296) (r : Bytes) :
    read32 (pack32c n ++ r) = some (n, r) := by
  have e : unpack32 (n / 16777216) (n / 65536 % 256) (n / 256 % 256) (n % 256) = n := by
    unfold unpack32; omega
  simp [pack32c, read32, e]

theorem read32_short (r : Bytes) (h : r.length < 4) : read32 r = none := by
  match r with
  | [] => rfl
  | [b] => rfl
  | [b, b'] => rfl
  | [b, b', b''] => rfl
  | b0 :: b1 :: b2 :: b3 :: r' => simp at h; omega

theorem readLen_app (a b : List Nat) : readLen a.length (a ++ b) = some (a, b) := by
  unfold readLen
  rw [if_neg (by simp)]
  rw [take_app, drop_app]

theorem readLen_exact (a : List Nat) : readLen a.length a = some (a, []) := by
  have := readLen_app a []
  simpa using this

theorem readLen_short (n : Nat) (r : Bytes) (h : r.length < n) : readLen n r = none := by
  unfold readLen
  rw [if_pos h]

end BinaryProtocol

theorem unpack64_pack64 (n : Nat) (h : n < 18446744073709551616) :
    unpack64 (pack64 n) = n := by
  simp only [pack64, unpack64, List.foldl]
  omega

theorem pack64_length (n : Nat) : (pack64 n).length = 8 := by
  simp [pack64]

namespace BinaryProtocol

theorem dictInsert_fresh (acc : List (PyStr × Value)) (k : PyStr) (v : Value)
    (h : ∀ p ∈ acc, p.1 ≠ k) : dictInsert acc k v = acc ++ [(k, v)] := by
  induction acc with
  | nil => rfl
  | cons p rest ih =>
    obtain ⟨k', v'⟩ := p
    unfold dictInsert
    rw [if_neg (h (k', v') (List.mem_cons_self _ _)),
      ih (fun q hq => h q (List.mem_cons_of_mem _ hq))]
    rfl

end BinaryProtocol

theorem utf8Decode_utf8Encode (s : PyStr) (bs : Bytes) (h : utf8Encode s = some bs) :
    utf8Decode bs = some s := by
  unfold utf8Encode at h
  by_cases hall : s.all isScalar = true
  · rw [if_pos hall] at h
    cases h
    have := utf8Decode_encode_append s hall []
    simpa [utf8Decode, utf8Run] using this
  · rw [if_neg hall] at h
    cases h

namespace BinaryProtocol

theorem readLen_one (x : Nat) (r : Bytes) : readLen 1 (x :: r) = some ([x], r) := by
  simpa using readLen_app [x] r

theorem fresh_extend (acc : List (PyStr × Value)) (k : PyStr) (w v : Value)
    (d : List (PyStr × Value))
    (hfresh : ∀ p ∈ acc, ∀ q ∈ (k, v) :: d, p.1 ≠ q.1)
    (hk : k ∉ d.map Prod.fst) :
    ∀ p ∈ acc ++ [(k, w)], ∀ q ∈ d, p.1 ≠ q.1 := by
  intro p hp q hq
  rcases List.mem_append.1 hp with h | h
  · exact hfresh p h q (List.mem_cons_of_mem _ hq)
  · simp only [List.mem_singleton] at h
    subst h
    intro hcontra
    apply hk
    have : k = q.1 := hcontra
    rw [this]
    exact List.mem_map_of_mem Prod.fst hq

theorem decodeFields_encodeFields (d : List (PyStr × Value)) :
    ∀ (acc : List (PyStr × Value)) (fs : Bytes),
      encodeFields (d.map (fun kv => (kv.1, kv.2.toPy))) = some fs →
      (d.map Prod.fst).Nodup →
      (∀ p ∈ acc, ∀ q ∈ d, p.1 ≠ q.1) →
      (∀ q ∈ d, ∀ bits, q.2 = Value.vnum bits → bits < 18446744073709551616) →
      decodeFields d.length fs acc = some (acc ++ d) := by
  induction d with
  | nil =>
    intro acc fs henc _ _ _
    simp only [List.map_nil, encodeFields, Option.some.injEq] at henc
    subst henc
    simp [decodeFields]
  | cons kv d ih =>
    obtain ⟨k, v⟩ := kv
    intro acc fs henc hnodup hfresh hbits
    simp only [List.map_cons, encodeFields, Option.pure_def, Option.bind_eq_bind,
      Option.bind_eq_some, Option.some.injEq] at henc
    obtain ⟨kb, hkb, kl, hkl, vb, hvb, restb, hrestb, hfs⟩ := henc
    obtain ⟨hkl16, rfl⟩ := pack16_eq_some _ _ hkl
    subst hfs
    simp only [List.map_cons, List.nodup_cons] at hnodup
    have hacck : ∀ p ∈ acc, p.1 ≠ k := fun p hp => hfresh p hp (k, v) (List.mem_cons_self _ _)
    have hbits' : ∀ q ∈ d, ∀ bits, q.2 = Value.vnum bits → bits < 18446744073709551616 :=
      fun q hq => hbits q (List.mem_cons_of_mem _ hq)
    simp only [List.length_cons]
    rw [decodeFields]
    simp only [List.append_assoc, read16_pack _ hkl16, readLen_app,
      utf8Decode_utf8Encode k kb hkb]
    cases v with
    | vstr s =>
      simp only [Value.toPy, encodeValue, isinstance_str, if_true, Option.pure_def,
        Option.bind_eq_bind, Option.bind_eq_some, Option.some.injEq] at hvb
      obtain ⟨sb, hsb, lb, hlb, hvb'⟩ := hvb
      obtain ⟨hsl32, rfl⟩ := pack32_eq_some _ _ hlb
      subst hvb'
      simp only [List.cons_append, List.append_assoc, read8, read32_pack _ hsl32, readLen_app,
        utf8Decode_utf8Encode s sb hsb, if_true]
      rw [dictInsert_fresh acc k _ hacck]
      rw [ih (acc ++ [(k, Value.vstr s)]) restb hrestb hnodup.2
        (fresh_extend acc k _ _ d hfresh hnodup.1) hbits']
      simp
    | vbool b =>
      simp only [Value.toPy, encodeValue, isinstance_str, isinstance_bool, Bool.false_eq_true,
        if_false, if_true, Option.some.injEq] at hvb
      subst hvb
      cases b with
      | true =>
        simp only [if_true, List.cons_append, List.append_assoc, List.nil_append, read8,
          read32_pack 1 (by norm_num) _, readLen_one]
        norm_num [VAL_STRING, VAL_NUMBER, VAL_BOOLEAN, VAL_BYTES]
        rw [dictInsert_fresh acc k _ hacck]
        rw [ih (acc ++ [(k, Value.vbool true)]) restb hrestb hnodup.2
          (fresh_extend acc k _ _ d hfresh hnodup.1) hbits']
        simp
      | false =>
        simp only [Bool.false_eq_true, if_false, List.cons_append, List.append_assoc,
          List.nil_append, read8, read32_pack 1 (by norm_num) _, readLen_one]
        norm_num [VAL_STRING, VAL_NUMBER, VAL_BOOLEAN, VAL_BYTES]
        rw [dictInsert_fresh acc k _ hacck]
        rw [ih (acc ++ [(k, Value.vbool false)]) restb hrestb hnodup.2
          (fresh_extend acc k _ _ d hfresh hnodup.1) hbits']
        simp
    | vnum bits =>
      have hb64 : bits < 18446744073709551616 :=
        hbits (k, Value.vnum bits) (List.mem_cons_self _ _) bits rfl
      simp only [Value.toPy, encodeValue, isinstance_str, isinstance_bool,
        isinstance_int_or_float, Bool.false_eq_true, if_false, if_true, pyFloatBits,
        Option.map_some', Option.some.injEq] at hvb
      subst hvb
      simp only [List.cons_append, List.append_assoc, read8, read32_pack 8 (by norm_num) _]
      rw [show readLen 8 (pack64 bits ++ restb) = some (pack64 bits, restb) from by
        have h := readLen_app (pack64 bits) restb
        rwa [pack64_length] at h]
      norm_num [VAL_STRING, VAL_NUMBER, VAL_BOOLEAN, VAL_BYTES]
      rw [show List.take 8 (pack64 bits) = pack64 bits from by
        conv_lhs => rw [← pack64_length bits]
        exact List.take_length _]
      rw [unpack64_pack64 bits hb64]
      rw [dictInsert_fresh acc k _ hacck]
      rw [ih (acc ++ [(k, Value.vnum bits)]) restb hrestb hnodup.2
        (fresh_extend acc k _ _ d hfresh hnodup.1) hbits']
      simp
    | vbytes bs =>
      simp only [Value.toPy, encodeValue, isinstance_str, isinstance_bool,
        isinstance_int_or_float, isinstance_bytes, Bool.false_eq_true, if_false, if_true,
        Option.map_eq_some', Option.some.injEq] at hvb
      obtain ⟨lb, hlb, hvb'⟩ := hvb
      obtain ⟨hbl32, rfl⟩ := pack32_eq_some _ _ hlb
      subst hvb'
      simp only [List.cons_append, List.append_assoc, read8, read32_pack _ hbl32, readLen_app]
      norm_num [VAL_STRING, VAL_NUMBER, VAL_BOOLEAN, VAL_BYTES]
      rw [dictInsert_fresh acc k _ hacck]
      rw [ih (acc ++ [(k, Value.vbytes bs)]) restb hrestb hnodup.2
        (fresh_extend acc k _ _ d hfresh hnodup.1) hbits']
      simp

end BinaryProtocol
namespace BinaryProtocol

theorem decodeData_encodeData (d : List (PyStr × Value)) (db : Bytes)
    (henc : encodeData (d.map (fun kv => (kv.1, kv.2.toPy))) = some db)
    (hnodup : (d.map Prod.fst).Nodup)
    (hbits : ∀ q ∈ d, ∀ bits, q.2 = Value.vnum bits → bits < 18446744073709551616) :
    decodeData db = some d := by
  unfold encodeData at henc
  match d with
  | [] =>
    simp only [List.map_nil, List.isEmpty_nil, if_true, Option.some.injEq] at henc
    subst henc
    rfl
  | kv :: d' =>
    simp only [List.map_cons, List.isEmpty_cons, Bool.false_eq_true, if_false,
      Option.pure_def, Option.bind_eq_bind, Option.bind_eq_some, Option.some.injEq] at henc
    obtain ⟨cnt, hcnt, fs, hfs, hdb⟩ := henc
    obtain ⟨hlen16, rfl⟩ := pack16_eq_some _ _ hcnt
    subst hdb
    unfold decodeData
    rw [read16_pack _ hlen16]
    have hmain := decodeFields_encodeFields (kv :: d') [] fs (by simpa using hfs) hnodup
      (by simp) hbits
    simpa using hmain

theorem decode_encode (t c : PyStr) (d : List (PyStr × Value)) (bs : Bytes)
    (henc : encode ⟨t, c, d.map (fun kv => (kv.1, kv.2.toPy))⟩ = some bs)
    (hnodup : (d.map Prod.fst).Nodup)
    (hbits : ∀ q ∈ d, ∀ bits, q.2 = Value.vnum bits → bits < 18446744073709551616) :
    decode bs = some ⟨t, c, d⟩ := by
  unfold encode at henc
  simp only [Option.pure_def, Option.bind_eq_bind, Option.bind_eq_some,
    Option.some.injEq] at henc
  obtain ⟨cb, hcb, cl, hcl, mtb, hmtb, mtl, hmtl, db, hdb, dl, hdl, hbs⟩ := henc
  obtain ⟨hcl16, rfl⟩ := pack16_eq_some _ _ hcl
  obtain ⟨hmtl16, rfl⟩ := pack16_eq_some _ _ hmtl
  obtain ⟨hdl32, rfl⟩ := pack32_eq_some _ _ hdl
  subst hbs
  simp only [decode, List.append_assoc, read16_pack _ hcl16, readLen_app,
    utf8Decode_utf8Encode c cb hcb, read16_pack _ hmtl16,
    utf8Decode_utf8Encode t mtb hmtb, read32_pack _ hdl32, readLen_exact]
  rw [decodeData_encodeData d db hdb hnodup hbits]
  rfl

end BinaryProtocol

namespace WSClient

theorem min_double_pow (a m : ℚ) (i : ℕ) (hm : 0 ≤ m) :
    min (min a m * 2 ^ i) m = min (a * 2 ^ i) m := by
  have h2 : (1 : ℚ) ≤ 2 ^ i := one_le_pow₀ (by norm_num)
  rcases le_total a m with h | h
  · rw [min_eq_left h]
  · rw [min_eq_right h]
    rw [min_eq_right (le_mul_of_one_le_right hm h2),
      min_eq_right (h.trans (le_mul_of_one_le_right (hm.trans h) h2))]

theorem backoffRun_failures (initD maxD : ℚ) (hm : 0 ≤ maxD) (N : ℕ) :
    ∀ (dly : ℚ) (conn : Bool) (subs : List PyStr) (snt : List Msg) (rest : List Bool),
      backoffRun initD maxD ⟨conn, subs, dly, snt⟩ (List.replicate N false ++ rest)
        = (List.range N).map (fun i => if i = 0 then dly else min (dly * 2 ^ i) maxD)
          ++ backoffRun initD maxD
               ⟨(if N = 0 then conn else false), subs,
                (if N = 0 then dly else min (dly * 2 ^ N) maxD), snt⟩ rest := by
  induction N with
  | zero =>
    intro dly conn subs snt rest
    simp
  | succ N ih =>
    intro dly conn subs snt rest
    rw [List.replicate_succ, List.cons_append]
    rw [show backoffRun initD maxD ⟨conn, subs, dly, snt⟩
        (false :: (List.replicate N false ++ rest))
        = dly :: backoffRun initD maxD ⟨false, subs, min (dly * 2) maxD, snt⟩
            (List.replicate N false ++ rest) from by
      simp [backoffRun, reconnectStep]]
    rw [ih (min (dly * 2) maxD) false subs snt rest]
    rw [List.range_succ_eq_map, List.map_cons, List.map_map]
    have h1 : (if N + 1 = 0 then conn else false) = false := if_neg (Nat.succ_ne_zero N)
    have h2 : (if N + 1 = 0 then dly else min (dly * 2 ^ (N + 1)) maxD)
        = min (dly * 2 ^ (N + 1)) maxD := if_neg (Nat.succ_ne_zero N)
    rw [h1, h2, if_pos rfl, ite_self]
    simp only [List.cons_append]
    congr 1
    congr 1
    · apply List.map_congr_left
      intro i _
      simp only [Function.comp_apply, if_neg (Nat.succ_ne_zero i)]
      by_cases hi : i = 0
      · subst hi
        norm_num
      · rw [if_neg hi, min_double_pow _ _ _ hm, pow_succ]
        ring_nf
    · by_cases hN : N = 0
      · subst hN
        norm_num
      · rw [if_neg hN, min_double_pow _ _ _ hm, pow_succ]
        ring_nf

end WSClient

theorem backoffRun_nil (i m : ℚ) (c : WSClient) : WSClient.backoffRun i m c [] = [] := rfl

/-- C1: the spec claims `decode` never raises on any byte string, including
arbitrary non-UTF-8 input. The code contradicts this: on the frame
`[0x03, 0x00, 0x01, 0xFF]` (kind byte, channel length 1, channel byte 0xFF)
the strict `data[offset:offset+channel_len].decode("utf-8")` at line 137 of
`protocol.py` raises `UnicodeDecodeError` (modelled as `none`). -/
theorem decode_raises_on_invalid_utf8 :
    BinaryProtocol.decode [0x03, 0x00, 0x01, 0xFF] = none := by decide

/-- C9: the result of `decode` is the same whatever the leading kind byte is:
for every byte `b` outside the five recognized kind bytes (in fact for every
byte), `decode (b :: rest)` succeeds exactly when and yields the same frame
as `decode (MSG_DATA :: rest)` — `decode` reads the kind byte and never uses
it, so an unrecognized kind is treated exactly as `Data`, never an error. -/
theorem decode_normalizes_unknown_kind (b : Nat) (rest : Bytes)
    (h : b ∉ ([0x01, 0x02, 0x03, 0x04, 0x05] : List Nat)) :
    BinaryProtocol.decode (b :: rest)
      = BinaryProtocol.decode (BinaryProtocol.MSG_DATA :: rest) := rfl

theorem decode_normalizes_unknown_kind_witness :
    (0x00 : Nat) ∉ ([0x01, 0x02, 0x03, 0x04, 0x05] : List Nat) ∧
      BinaryProtocol.decode (0x00 :: [0x00, 0x01, 0x61]) =
        BinaryProtocol.decode (BinaryProtocol.MSG_DATA :: [0x00, 0x01, 0x61]) :=
  ⟨by decide, decode_normalizes_unknown_kind 0x00 [0x00, 0x01, 0x61] (by decide)⟩

/-- C8: sending a message while the client is not connected raises the
synchronous `WebSocketError("WebSocket is not connected")` and leaves the
client state — in particular the trace of bytes written to the socket —
unchanged: the message is never silently dropped nor written. -/
theorem send_while_not_connected (c : WSClient) (m : Msg) (h : c.connected = false) :
    WSClient.sendMessage c m = (c, some "WebSocket is not connected") := by
  unfold WSClient.sendMessage
  rw [if_pos (by simp [h])]

theorem send_while_not_connected_witness :
    (WSClient.mk false [] 1 []).connected = false ∧
      WSClient.sendMessage ⟨false, [], 1, []⟩ (WSClient.subscribeMsg (strLit "ch"))
        = (⟨false, [], 1, []⟩, some "WebSocket is not connected") :=
  ⟨rfl, send_while_not_connected ⟨false, [], 1, []⟩ (WSClient.subscribeMsg (strLit "ch")) rfl⟩

/-- C4: subscribing to two distinct channels A and B while disconnected sends
nothing; a subsequent successful connect emits exactly the two Subscribe
frames for A and B (here in subscription order, one fixed order of the
replayed set) as the only outbound traffic so far. -/
theorem resubscription_on_connect (A B : PyStr) (d rd : ℚ) (hAB : A ≠ B) :
    (WSClient.subscribe ⟨false, [], d, []⟩ A).sent = []
    ∧ (WSClient.subscribe (WSClient.subscribe ⟨false, [], d, []⟩ A) B).sent = []
    ∧ (WSClient.connectOk rd (WSClient.subscribe (WSClient.subscribe ⟨false, [], d, []⟩ A) B)).sent
        = [WSClient.subscribeMsg A, WSClient.subscribeMsg B] := by
  refine ⟨?_, ?_, ?_⟩ <;>
    simp [WSClient.subscribe, WSClient.setAdd, WSClient.connectOk, Ne.symm hAB]

theorem resubscription_on_connect_witness :
    strLit "a" ≠ strLit "b" ∧
      (WSClient.connectOk 1 (WSClient.subscribe
          (WSClient.subscribe ⟨false, [], 1, []⟩ (strLit "a")) (strLit "b"))).sent
        = [WSClient.subscribeMsg (strLit "a"), WSClient.subscribeMsg (strLit "b")] :=
  ⟨by decide, (resubscription_on_connect (strLit "a") (strLit "b") 1 1 (by decide)).2.2⟩

/-- C3: starting from the configured initial delay d0, N consecutive failed
reconnect attempts wait d0, min(2·d0, dmax), min(4·d0, dmax), ...; a
subsequent successful connect resets the stored delay, so the next wait
after a later connection loss is d0 again. -/
theorem backoff_sequence (d0 dmax : ℚ) (h0 : 0 ≤ d0) (hm : 0 ≤ dmax) (N : ℕ)
    (tail : List Bool) :
    WSClient.backoffRun d0 dmax ⟨false, [], d0, []⟩ (List.replicate N false)
      = (List.range N).map (fun i => if i = 0 then d0 else min (d0 * 2 ^ i) dmax)
    ∧ WSClient.backoffRun d0 dmax ⟨false, [], d0, []⟩
        (List.replicate N false ++ true :: false :: tail)
      = (List.range N).map (fun i => if i = 0 then d0 else min (d0 * 2 ^ i) dmax)
        ++ (if N = 0 then d0 else min (d0 * 2 ^ N) dmax)
        :: d0
        :: WSClient.backoffRun d0 dmax ⟨false, [], min (d0 * 2) dmax, []⟩ tail := by
  constructor
  · have h := WSClient.backoffRun_failures d0 dmax hm N d0 false [] [] []
    rw [List.append_nil] at h
    rw [h, backoffRun_nil, List.append_nil]
  · have h := WSClient.backoffRun_failures d0 dmax hm N d0 false [] [] (true :: false :: tail)
    rw [h]
    rfl

theorem backoff_sequence_witness :
    WSClient.backoffRun 1 30 ⟨false, [], 1, []⟩
        (List.replicate 3 false ++ true :: false :: [false])
      = [1, 2, 4, 8, 1, 2] := by
  have h := (backoff_sequence 1 30 (by norm_num) (by norm_num) 3 [false]).2
  rw [h]
  norm_num [WSClient.backoffRun, WSClient.reconnectStep, List.range_succ]

namespace BinaryProtocol

/-- C5: graduated truncation policy of `decode`. With a fully parseable header
(kind byte, channel length and bytes, messageType length and bytes), a
missing or short payload-length prefix or payload returns the parsed frame
with an empty payload; insufficient bytes at any earlier header stage
returns a synthetic Error frame carrying whatever channel was parsed so far. -/
theorem decode_truncation_policy (k : Nat) (cb mb : Bytes) (cstr mstr : PyStr)
    (hcb : utf8Decode cb = some cstr) (hcbl : cb.length < 65536)
    (hmb : utf8Decode mb = some mstr) (hmbl : mb.length < 65536) :
    (∀ tail : Bytes, tail.length < 4 →
      decode (k :: (pack16c cb.length ++ cb ++ (pack16c mb.length ++ mb ++ tail)))
        = some ⟨mstr, cstr, []⟩)
    ∧ (∀ (n : Nat) (pay : Bytes), pay.length < n → n < 4294967296 →
      decode (k :: (pack16c cb.length ++ cb ++ (pack16c mb.length ++ mb ++ (pack32c n ++ pay))))
        = some ⟨mstr, cstr, []⟩)
    ∧ decode [k] = some (errFrame [] "Invalid message")
    ∧ (∀ b : Nat, decode [k, b] = some (errFrame [] "Invalid message"))
    ∧ (∀ (n : Nat) (pre : Bytes), pre.length < n → n < 65536 →
      decode (k :: (pack16c n ++ pre)) = some (errFrame [] "Invalid message"))
    ∧ (∀ e : Bytes, e.length < 2 →
      decode (k :: (pack16c cb.length ++ cb ++ e)) = some (errFrame cstr "Invalid message"))
    ∧ (∀ (n : Nat) (pre : Bytes), pre.length < n → n < 65536 →
      decode (k :: (pack16c cb.length ++ cb ++ (pack16c n ++ pre)))
        = some (errFrame cstr "Invalid message")) := by
  refine ⟨?_, ?_, ?_, ?_, ?_, ?_, ?_⟩
  · intro tail ht
    simp only [decode, List.append_assoc, read16_pack _ hcbl, readLen_app, hcb,
      read16_pack _ hmbl, hmb, read32_short tail ht]
  · intro n pay h1 h2
    simp only [decode, List.append_assoc, read16_pack _ hcbl, readLen_app, hcb,
      read16_pack _ hmbl, hmb, read32_pack _ h2, readLen_short n pay h1]
  · simp [decode, read16]
  · intro b
    simp [decode, read16]
  · intro n pre h1 h2
    simp only [decode, List.append_assoc, read16_pack _ h2, readLen_short n pre h1]
  · intro e he
    simp only [decode, List.append_assoc, read16_pack _ hcbl, readLen_app, hcb,
      read16_short e he]
  · intro n pre h1 h2
    simp only [decode, List.append_assoc, read16_pack _ hcbl, readLen_app, hcb,
      read16_pack _ h2, readLen_short n pre h1]

theorem decode_truncation_policy_witness :
    decode [0x03, 0x00, 0x01, 0x61, 0x00, 0x01, 0x62]
      = some ⟨[0x62], [0x61], []⟩ :=
  (decode_truncation_policy 0x03 [0x61] [0x62] [0x61] [0x62]
    (by decide) (by decide) (by decide) (by decide)).1 [] (by decide)

/-- C10: during payload decoding, a Number-tagged field whose declared length
is shorter than 8 (with its declared bytes present) decodes to 0.0, and a
Boolean-tagged field with declared length 0 decodes to False; in both cases
the loop records the field and continues with the remaining bytes. -/
theorem lenient_short_number_boolean (n : Nat) (acc : List (PyStr × Value))
    (kb : Bytes) (key : PyStr) (L : Nat) (vbts rest : Bytes)
    (hkb : utf8Decode kb = some key) (hk16 : kb.length < 65536)
    (hlen : vbts.length = L) (hL8 : L < 8) (hL32 : L < 4294967296) :
    decodeFields (n + 1)
        (pack16c kb.length ++ kb ++ (VAL_NUMBER :: (pack32c L ++ (vbts ++ rest)))) acc
      = decodeFields n rest (dictInsert acc key (Value.vnum 0))
    ∧ decodeFields (n + 1)
        (pack16c kb.length ++ kb ++ (VAL_BOOLEAN :: (pack32c 0 ++ rest))) acc
      = decodeFields n rest (dictInsert acc key (Value.vbool false)) := by
  subst hlen
  constructor
  · rw [decodeFields]
    simp only [List.append_assoc, read16_pack _ hk16, readLen_app, hkb, List.cons_append,
      read8, read32_pack _ hL32]
    rw [if_neg (show ¬ (VAL_NUMBER = VAL_STRING) from by decide), if_pos trivial,
      if_neg (show ¬ (8 ≤ vbts.length) from by omega)]
  · rw [decodeFields]
    simp only [List.append_assoc, read16_pack _ hk16, readLen_app, hkb, List.cons_append,
      read8, read32_pack 0 (by norm_num) _]
    simp only [show readLen 0 rest = some ([], rest) from by simpa using readLen_app [] rest]
    rw [if_neg (show ¬ (VAL_BOOLEAN = VAL_STRING) from by decide),
      if_neg (show ¬ (VAL_BOOLEAN = VAL_NUMBER) from by decide), if_pos trivial,
      if_neg (show ¬ ((1 : Nat) ≤ 0) from by omega)]

theorem lenient_short_number_boolean_witness :
    decodeFields 1 [0x00, 0x01, 0x6B, 0x02, 0x00, 0x00, 0x00, 0x03, 0x09, 0x09, 0x09] []
      = some [([0x6B], Value.vnum 0)] := by
  have h := (lenient_short_number_boolean 0 [] [0x6B] [0x6B] 3 [0x09, 0x09, 0x09] []
    (by decide) (by decide) (by decide) (by decide) (by decide)).1
  exact h.trans (by decide)

end BinaryProtocol
namespace BinaryProtocol

theorem encodeFields_contains (d : List (PyStr × PyValue)) :
    ∀ (fs : Bytes), encodeFields d = some fs →
      ∀ (k : PyStr) (v : PyValue) (vb : Bytes), (k, v) ∈ d → encodeValue v = some vb →
      ∃ pre suf, fs = pre ++ vb ++ suf := by
  induction d with
  | nil =>
    intro fs _ k v vb hmem _
    simp at hmem
  | cons kv d ih =>
    intro fs henc k v vb hmem hvb
    obtain ⟨k0, v0⟩ := kv
    simp only [encodeFields, Option.pure_def, Option.bind_eq_bind, Option.bind_eq_some,
      Option.some.injEq] at henc
    obtain ⟨kb, hkb, kl, hkl, vb0, hvb0, restb, hrestb, hfs⟩ := henc
    subst hfs
    rcases List.mem_cons.1 hmem with heq | hmem'
    · obtain ⟨hk, hv⟩ := Prod.mk.injEq .. ▸ heq
      subst hk
      subst hv
      rw [hvb] at hvb0
      cases hvb0
      exact ⟨kl ++ kb, restb, by simp [List.append_assoc]⟩
    · obtain ⟨pre, suf, hps⟩ := ih restb hrestb k v vb hmem' hvb
      subst hps
      exact ⟨kl ++ kb ++ vb0 ++ pre, suf, by simp [List.append_assoc]⟩

/-- C6: a boolean payload value is encoded with the Boolean tag 0x03, declared
length 1 and a single byte 0x01/0x00 — never with the Number tag — although
`isinstance(value, (int, float))` also holds for booleans (`bool` is a
subclass of `int`): the boolean branch of `_encode_data` is checked before
the numeric branch. The encoded payload contains that exact chunk. -/
theorem boolean_encoded_with_boolean_tag (d : List (PyStr × PyValue)) (k : PyStr) (b : Bool)
    (out : Bytes) (hmem : (k, PyValue.vbool b) ∈ d) (henc : encodeData d = some out) :
    isinstance_int_or_float (PyValue.vbool b) = true
    ∧ encodeValue (PyValue.vbool b)
        = some (VAL_BOOLEAN :: (pack32c 1 ++ [if b then 0x01 else 0x00]))
    ∧ ∃ pre suf,
        out = pre ++ (VAL_BOOLEAN :: (pack32c 1 ++ [if b then 0x01 else 0x00])) ++ suf := by
  refine ⟨rfl, rfl, ?_⟩
  unfold encodeData at henc
  have hne : d.isEmpty = false := by
    cases d with
    | nil => simp at hmem
    | cons hd tl => rfl
  rw [hne] at henc
  simp only [Bool.false_eq_true, if_false, Option.pure_def, Option.bind_eq_bind,
    Option.bind_eq_some, Option.some.injEq] at henc
  obtain ⟨cnt, hcnt, fs, hfs, hout⟩ := henc
  subst hout
  obtain ⟨pre, suf, hps⟩ := encodeFields_contains d fs hfs k (PyValue.vbool b) _ hmem rfl
  subst hps
  exact ⟨cnt ++ pre, suf, by simp [List.append_assoc]⟩

theorem boolean_encoded_with_boolean_tag_witness :
    isinstance_int_or_float (PyValue.vbool true) = true
    ∧ encodeValue (PyValue.vbool true)
        = some (VAL_BOOLEAN :: (pack32c 1 ++ [0x01]))
    ∧ ∃ pre suf,
        [0x00, 0x01, 0x00, 0x01, 0x61, 0x03, 0x00, 0x00, 0x00, 0x01, 0x01]
          = pre ++ (VAL_BOOLEAN :: (pack32c 1 ++ [0x01])) ++ suf := by
  have h := boolean_encoded_with_boolean_tag [(strLit "a", PyValue.vbool true)] (strLit "a")
    true [0x00, 0x01, 0x00, 0x01, 0x61, 0x03, 0x00, 0x00, 0x00, 0x01, 0x01]
    (by decide) (by decide)
  simpa using h

end BinaryProtocol
namespace WSClient

theorem dispatchMessage_eq (hs : List (PyStr × Handler)) (m : Frame) :
    dispatchMessage hs m
      = (if (lookup hs m.type).isSome then [(m.type, m)] else [])
        ++ (if (lookup hs (strLit "*")).isSome then [(strLit "*", m)] else []) := by
  unfold dispatchMessage
  cases hl : lookup hs m.type with
  | none =>
    cases hw : lookup hs (strLit "*") with
    | none => simp
    | some hW =>
      simp only [Option.isSome_some, Option.isSome_none, Bool.false_eq_true, if_false,
        if_true, List.nil_append]
      split <;> rfl
  | some hT =>
    cases hw : lookup hs (strLit "*") with
    | none =>
      simp only [Option.isSome_some, Option.isSome_none, Bool.false_eq_true, if_false,
        if_true, List.append_nil]
      split <;> rfl
    | some hW =>
      simp only [Option.isSome_some, if_true]
      congr 1
      · split <;> rfl
      · split <;> rfl

theorem lookup_isSome_congr (hs hs' : List (PyStr × Handler))
    (hk : hs.map Prod.fst = hs'.map Prod.fst) (k : PyStr) :
    (lookup hs k).isSome = (lookup hs' k).isSome := by
  induction hs generalizing hs' with
  | nil =>
    cases hs' with
    | nil => rfl
    | cons p t => simp at hk
  | cons p t ih =>
    cases hs' with
    | nil => simp at hk
    | cons p' t' =>
      obtain ⟨k1, f1⟩ := p
      obtain ⟨k1', f1'⟩ := p'
      simp only [List.map_cons, List.cons.injEq] at hk
      obtain ⟨h1, h2⟩ := hk
      unfold lookup
      rw [h1]
      by_cases hpk : k1' = k
      · rw [if_pos hpk, if_pos hpk]
        rfl
      · rw [if_neg hpk, if_neg hpk]
        exact ih t' h2

theorem receiveLoop_cons (hs : List (PyStr × Handler)) (m : Frame) (msgs : List Frame) :
    receiveLoop hs (m :: msgs) = dispatchMessage hs m ++ receiveLoop hs msgs := rfl

theorem dispatchMessage_congr (hs hs' : List (PyStr × Handler))
    (hk : hs.map Prod.fst = hs'.map Prod.fst) (m : Frame) :
    dispatchMessage hs m = dispatchMessage hs' m := by
  rw [dispatchMessage_eq, dispatchMessage_eq, lookup_isSome_congr hs hs' hk m.type,
    lookup_isSome_congr hs hs' hk (strLit "*")]

theorem receiveLoop_congr (hs hs' : List (PyStr × Handler))
    (hk : hs.map Prod.fst = hs'.map Prod.fst) :
    ∀ msgs : List Frame, receiveLoop hs msgs = receiveLoop hs' msgs
  | [] => rfl
  | m :: msgs => by
    rw [receiveLoop_cons, receiveLoop_cons, dispatchMessage_congr hs hs' hk m,
      receiveLoop_congr hs hs' hk msgs]

/-- C7: dispatch invokes the type-specific handler first and the wildcard
handler second, both on the same message; processing of a message stream is
the concatenation of per-message dispatches, and the dispatch trace depends
only on which event types are registered — in particular it is unchanged
when a handler's body raises (the raise is caught and discarded inside the
loop, so a raising handler never prevents handler invocations on a
subsequent message). -/
theorem dispatch_order_and_isolation (hs : List (PyStr × Handler)) (m : Frame)
    (msgs : List Frame) :
    (dispatchMessage hs m
        = (if (lookup hs m.type).isSome then [(m.type, m)] else [])
          ++ (if (lookup hs (strLit "*")).isSome then [(strLit "*", m)] else []))
    ∧ receiveLoop hs (m :: msgs) = dispatchMessage hs m ++ receiveLoop hs msgs
    ∧ (∀ hs' : List (PyStr × Handler), hs.map Prod.fst = hs'.map Prod.fst →
        receiveLoop hs (m :: msgs) = receiveLoop hs' (m :: msgs)) :=
  ⟨dispatchMessage_eq hs m, rfl,
    fun hs' hk => receiveLoop_congr hs hs' hk (m :: msgs)⟩

theorem dispatch_order_and_isolation_witness :
    receiveLoop [(strLit "x", fun _ => Except.error "boom")]
        [⟨strLit "x", [], []⟩, ⟨strLit "y", [], []⟩]
      = [(strLit "x", ⟨strLit "x", [], []⟩)] := by
  have h := (dispatch_order_and_isolation [(strLit "x", fun _ => Except.error "boom")]
    ⟨strLit "x", [], []⟩ [⟨strLit "y", [], []⟩]).2.1
  rw [h]
  decide

end WSClient

/-- C2: for a message whose payload holds only text, boolean, double and
byte-sequence values with distinct keys, whenever `encode` succeeds (all
strings encodable, all lengths within their prefix widths), decoding the
encoded bytes returns the message field for field, with payload insertion
order preserved; the `type` string round-trips even when it is not one of
the five recognized kind strings. -/
theorem encode_decode_roundtrip (t c : PyStr) (d : List (PyStr × Value))
    (hnodup : (d.map Prod.fst).Nodup)
    (hbits : ∀ q ∈ d, ∀ bits, q.2 = Value.vnum bits → bits < 18446744073709551616)
    (henc : (BinaryProtocol.encode ⟨t, c, d.map (fun kv => (kv.1, kv.2.toPy))⟩).isSome) :
    (BinaryProtocol.encode ⟨t, c, d.map (fun kv => (kv.1, kv.2.toPy))⟩).bind
        BinaryProtocol.decode
      = some ⟨t, c, d⟩ := by
  obtain ⟨bs, hbs⟩ := Option.isSome_iff_exists.1 henc
  rw [hbs]
  simp only [Option.some_bind]
  exact BinaryProtocol.decode_encode t c d bs hbs hnodup hbits

theorem encode_decode_roundtrip_witness :
    (BinaryProtocol.encode ⟨strLit "weird", strLit "terminal:1",
        ([(strLit "output", Value.vstr (strLit "hi")),
          (strLit "exit_code", Value.vnum 0),
          (strLit "done", Value.vbool true),
          (strLit "blob", Value.vbytes [0x00, 0xFF])].map
          (fun kv => (kv.1, kv.2.toPy)))⟩).bind BinaryProtocol.decode
      = some ⟨strLit "weird", strLit "terminal:1",
          [(strLit "output", Value.vstr (strLit "hi")),
           (strLit "exit_code", Value.vnum 0),
           (strLit "done", Value.vbool true),
           (strLit "blob", Value.vbytes [0x00, 0xFF])]⟩ :=
  encode_decode_roundtrip (strLit "weird") (strLit "terminal:1")
    [(strLit "output", Value.vstr (strLit "hi")),
     (strLit "exit_code", Value.vnum 0),
     (strLit "done", Value.vbool true),
     (strLit "blob", Value.vbytes [0x00, 0xFF])]
    (by decide)
    (by
      intro q hq bits hbit
      fin_cases hq <;> simp_all <;> omega)
    (by decide)

end ComputeSDK
